import Mathlib

/-!
Shallow embedding of `pulp_file/app/tasks.py`: the file-plugin sync and
publish tasks and the `Synchronizer` class (natural keys, delta
computation, addition/removal expansion, and the orchestration of
repository-version / publication lifecycle around failures).
-/

namespace PulpFile

/-- Natural key over content: `Key = namedtuple('Key', ('path', 'digest'))`. -/
structure Key where
  path : String
  digest : String
deriving DecidableEq, Repr

/-- One manifest record: `Entry(path, digest, size)` from `pulp_file.manifest`. -/
structure Entry where
  path : String
  digest : String
  size : Nat
deriving DecidableEq, Repr

/-- The natural key of a manifest entry, as built at tasks.py:266 and :290. -/
def keyOf (e : Entry) : Key := ⟨e.path, e.digest⟩

/-- The set of natural keys appearing in a manifest (tasks.py:266). -/
def remoteKeys (manifest : List Entry) : Finset Key :=
  (manifest.map keyOf).toFinset

/--
`Synchronizer._find_delta` (tasks.py:253-270): `keys_to_add` is the set
difference remote − inventory; `keys_to_remove` is inventory − remote when
`mirror` is true and keeps its `__init__` value `set()` when false.
Returns `(keys_to_add, keys_to_remove)`.
-/
def findDelta (manifest : List Entry) (inventory : Finset Key) (mirror : Bool) :
    Finset Key × Finset Key :=
  let rk := remoteKeys manifest
  (rk \ inventory, if mirror then inventory \ rk else ∅)

/-- A content unit of the prior repository version, projected to the fields
the synchronizer touches: a row id and the `FileContent` natural-key fields
(`c.cast()` then `content.path`, `content.digest`, tasks.py:249-250). -/
structure Content where
  id : Nat
  path : String
  digest : String
deriving DecidableEq, Repr

/-- Natural key of a stored content unit (tasks.py:250). -/
def ckey (c : Content) : Key := ⟨c.path, c.digest⟩

/--
`Synchronizer._fetch_inventory` (tasks.py:242-251): with no prior version
the initial `set()` is kept; otherwise each prior-version content unit is
projected to its natural key.
-/
def fetchInventory : Option (List Content) → Finset Key
  | none => ∅
  | some cs => (cs.map ckey).toFinset

/-- The six components of `urllib.parse.urlparse` / `ParseResult`. -/
structure UrlParts where
  scheme : String
  netloc : String
  path : String
  params : String
  query : String
  fragment : String
deriving DecidableEq, Repr

/-- CPython `posixpath.dirname`: everything up to (and not including) the
final slash, with trailing slashes stripped unless the head is all
slashes; the empty string when there is no slash. -/
def posixDirname (p : String) : String :=
  let head := (p.data.reverse.dropWhile (fun c => c ≠ '/')).reverse
  if head ≠ [] ∧ head.any (fun c => c ≠ '/') then
    ⟨(head.reverse.dropWhile (fun c => c = '/')).reverse⟩
  else
    ⟨head⟩

/-- CPython `posixpath.join` restricted to two components, as called at
tasks.py:295. -/
def posixJoin (a b : String) : String :=
  if b.startsWith "/" then b
  else if a = "" ∨ a.endsWith "/" then a ++ b
  else a ++ "/" ++ b

/-- CPython `urllib.parse.urlunparse` (via `urlunsplit`), as in the
Python 3.5/3.6 standard library contemporary with this code (later
versions changed only the empty-netloc branch). -/
def urlunparse (u : UrlParts) : String :=
  let url := if u.params ≠ "" then u.path ++ ";" ++ u.params else u.path
  let url :=
    if u.netloc ≠ "" ∨ (url ≠ "" ∧ url.startsWith "//") then
      "//" ++ u.netloc ++
        (if url ≠ "" ∧ ¬ url.startsWith "/" then "/" ++ url else url)
    else url
  let url := if u.scheme ≠ "" then u.scheme ++ ":" ++ url else url
  let url := if u.query ≠ "" then url ++ "?" ++ u.query else url
  if u.fragment ≠ "" then url ++ "#" ++ u.fragment else url

/-- The download URL built for one manifest entry (tasks.py:285-296):
`urlunparse(parsed_url._replace(path=os.path.join(os.path.dirname(parsed_url.path), entry.path)))`. -/
def additionUrl (feed : UrlParts) (e : Entry) : String :=
  urlunparse { feed with path := posixJoin (posixDirname feed.path) e.path }

/-- `PendingArtifact(Artifact(size=entry.size, sha256=entry.digest), url, entry.path)`
(tasks.py:298-304). -/
structure PendingArtifact where
  size : Nat
  sha256 : String
  url : String
  relativePath : String
deriving DecidableEq, Repr

/-- `PendingContent(FileContent(path, digest), artifacts={PendingArtifact(...)})`
(tasks.py:297-305). -/
structure PendingContent where
  path : String
  digest : String
  artifact : PendingArtifact
deriving DecidableEq, Repr

/-- The descriptor `_build_additions` yields for one manifest entry
(tasks.py:294-306). -/
def mkPendingContent (feed : UrlParts) (e : Entry) : PendingContent :=
  { path := e.path
    digest := e.digest
    artifact :=
      { size := e.size
        sha256 := e.digest
        url := additionUrl feed e
        relativePath := e.path } }

/-- The natural key carried by a yielded descriptor. -/
def pcKey (d : PendingContent) : Key := ⟨d.path, d.digest⟩

/--
`Synchronizer._build_additions` (tasks.py:272-306): a second pass over
the manifest in its natural order; entries whose key is not in
`keys_to_add` are skipped (`continue`), every other entry yields one
descriptor.
-/
def buildAdditions (feed : UrlParts) : List Entry → Finset Key → List PendingContent
  | [], _ => []
  | e :: rest, keysToAdd =>
      if keyOf e ∈ keysToAdd then
        mkPendingContent feed e :: buildAdditions feed rest keysToAdd
      else
        buildAdditions feed rest keysToAdd

/-- One batch predicate of `_build_removals` (tasks.py:316-318): the `Q`
object is the disjunction over the batch of
`filecontent__path=key.path, filecontent__digest=key.digest`. -/
def matchesBatch (batch : List Key) (c : Content) : Bool :=
  batch.any (fun k => c.path = k.path ∧ c.digest = k.digest)

/-- `BatchIterator` (pulpcore changeset collaborator): cuts the iterable
into consecutive fixed-size batches. -/
def toBatches (n : Nat) : List α → List (List α)
  | [] => []
  | x :: xs => (x :: xs.take (n - 1)) :: toBatches n (xs.drop (n - 1))
termination_by l => l.length
decreasing_by
  simp only [List.length_cons, List.length_drop]
  omega

/--
`Synchronizer._build_removals` (tasks.py:308-322): for each batch of
`keys_to_remove`, one filtered lookup against the old version's content
yields every matching content row (projected to its id by `.only`,
modelled here by keeping the whole projected row).
-/
def buildRemovals (keysToRemove : List Key) (oldContent : List Content)
    (batchSize : Nat) : List Content :=
  (toBatches batchSize keysToRemove).flatMap
    (fun batch => oldContent.filter (matchesBatch batch))

/-- The persisted state the `sync` task touches: the repository's
`last_version` counter, its version rows `(number, complete)`, and the
`CreatedResource` tracking rows (holding the tracked version number). -/
structure RepoState where
  lastVersion : Nat
  versions : List (Nat × Bool)
  createdResources : List Nat
deriving DecidableEq, Repr

/-- The error `sync` raises when `importer.feed_url` is falsy (tasks.py:142). -/
def feedUrlError : String := "An importer must have a feed_url attribute to sync."

/--
The `sync` task (tasks.py:128-174). `feedUrl` is the importer's
`feed_url` (`none` models a null column); `runOk` abstracts whether
`Synchronizer.run` (download, delta, ChangeSet apply) succeeds. Steps:
validate `feed_url`; create the new incomplete version, bump and save
`last_version`, create the tracking record; run the synchronizer; on
success mark the version complete, on any exception delete the version
and the tracking record and re-raise.
-/
def sync (feedUrl : Option String) (runOk : Bool) (st : RepoState) :
    Except String Unit × RepoState :=
  if feedUrl = none ∨ feedUrl = some "" then
    (.error feedUrlError, st)
  else
    let newNum := st.lastVersion + 1
    if runOk then
      (.ok (), ⟨newNum, st.versions ++ [(newNum, true)],
                st.createdResources ++ [newNum]⟩)
    else
      (.error "Synchronizer.run failed", ⟨newNum, st.versions, st.createdResources⟩)

/-- The persisted state the `publish` task touches: publication rows and
`CreatedResource` tracking rows (both holding a publication id). -/
structure PubState where
  publications : List Nat
  createdResources : List Nat
deriving DecidableEq, Repr

/--
The `publish` task (tasks.py:82-125). `writeOk` abstracts whether the
manifest write / metadata save inside the `try` succeeds. The publication
and its tracking record are created; on an exception both are deleted —
and the exception is NOT re-raised (the `except` clause at
tasks.py:117-119 has no `raise`), so the task returns normally and
tasks.py:121-125 still logs the publication as created.
-/
def publish (writeOk : Bool) (st : PubState) : Except String Unit × PubState :=
  let p := st.publications.length
  let st1 : PubState := ⟨st.publications ++ [p], st.createdResources ++ [p]⟩
  if writeOk then
    (.ok (), st1)
  else
    (.ok (), st)

theorem buildAdditions_eq_filter_map (feed : UrlParts) (M : List Entry) (A : Finset Key) :
    buildAdditions feed M A =
      (M.filter (fun e => keyOf e ∈ A)).map (mkPendingContent feed) := by
  induction M with
  | nil => rfl
  | cons e rest ih =>
      by_cases h : keyOf e ∈ A <;>
        simp [buildAdditions, h, ih, List.filter_cons]

theorem filter_comp_map {α β : Type} (f : α → β) (p : β → Bool) (l : List α) :
    (l.map f).filter p = (l.filter (fun a => p (f a))).map f := by
  induction l with
  | nil => rfl
  | cons x xs ih => by_cases h : p (f x) <;> simp [h, ih]

/--
C1: `_find_delta` computes `keys_to_add = keys(R) − L`; it computes
`keys_to_remove = L − keys(R)` when `mirror` is true and leaves
`keys_to_remove = ∅` when `mirror` is false; and the two sets are
disjoint in all cases.
-/
theorem findDelta_sets (M : List Entry) (L : Finset Key) :
    findDelta M L true = (remoteKeys M \ L, L \ remoteKeys M) ∧
    findDelta M L false = (remoteKeys M \ L, ∅) ∧
    ∀ mirror : Bool, (findDelta M L mirror).1 ∩ (findDelta M L mirror).2 = ∅ := by
  refine ⟨rfl, rfl, ?_⟩
  intro mirror
  cases mirror
  · simp [findDelta]
  · ext x
    simp only [findDelta, if_pos, Finset.mem_inter, Finset.mem_sdiff,
      Finset.not_mem_empty, iff_false, not_and]
    tauto

/--
C4: after fully applying a mirror sync's additions and removals to the
inventory, running `_find_delta` again against the unchanged manifest
yields `keys_to_add = ∅` and `keys_to_remove = ∅`.
-/
theorem findDelta_idempotent (M : List Entry) (L : Finset Key) :
    findDelta M
      ((L \ (findDelta M L true).2) ∪ (findDelta M L true).1) true = (∅, ∅) := by
  have h : (L \ (L \ remoteKeys M)) ∪ (remoteKeys M \ L) = remoteKeys M := by
    ext x
    simp only [Finset.mem_union, Finset.mem_sdiff, not_and, not_not]
    tauto
  simp only [findDelta, if_true]
  rw [h]
  simp [Finset.sdiff_self]

/--
C7: with no prior repository version the inventory built by
`_fetch_inventory` is empty, and `_find_delta` then computes an empty
`keys_to_remove` regardless of the `mirror` flag.
-/
theorem firstSync_empty_inventory :
    fetchInventory none = ∅ ∧
    ∀ (M : List Entry) (mirror : Bool),
      (findDelta M (fetchInventory none) mirror).2 = ∅ := by
  refine ⟨rfl, ?_⟩
  intro M mirror
  cases mirror <;> simp [findDelta, fetchInventory]

/--
C8: when the importer's `feed_url` is missing or empty, `sync` raises
`ValueError` before any state mutation: no version row is created,
`last_version` is not bumped, and no tracking record is created.
-/
theorem sync_missing_feed_url (runOk : Bool) (st : RepoState) :
    sync none runOk st = (.error feedUrlError, st) ∧
    sync (some "") runOk st = (.error feedUrlError, st) := by
  constructor <;> simp [sync]

/--
C10: when the synchronizer step fails, `sync` deletes only the new
version row and its tracking record; `last_version` stays incremented by
one (version numbers are consumed even by failed syncs), and the error
propagates.
-/
theorem sync_failure_frame (url : String) (st : RepoState) (h : url ≠ "") :
    sync (some url) false st =
      (.error "Synchronizer.run failed",
       ⟨st.lastVersion + 1, st.versions, st.createdResources⟩) := by
  simp [sync, h]

/-- Witness for `sync_failure_frame` at a concrete repository state. -/
theorem sync_failure_frame_witness :
    sync (some "http://host/pub/PULP_MANIFEST") false ⟨3, [(1, true), (2, true)], []⟩ =
      (.error "Synchronizer.run failed", ⟨4, [(1, true), (2, true)], []⟩) :=
  sync_failure_frame "http://host/pub/PULP_MANIFEST" ⟨3, [(1, true), (2, true)], []⟩
    (by decide)

/--
C3: on failure after creating the tracked object, both tasks delete the
created object and the tracking record — but only `sync` re-raises the
exception. `publish` (tasks.py:117-119) swallows it: the task returns
normally (`.ok`), contradicting the claimed propagation for publish.
-/
theorem publish_swallows_exception :
    sync (some "http://host/pub/PULP_MANIFEST") false ⟨3, [(1, true)], [1]⟩ =
      (.error "Synchronizer.run failed", ⟨4, [(1, true)], [1]⟩) ∧
    publish false ⟨[0], [0]⟩ = (.ok (), ⟨[0], [0]⟩) := by
  constructor <;> rfl

/--
C5: each descriptor yielded for a key in `keys_to_add` carries the
artifact size and digest straight from the manifest entry, and its
download URL is the feed URL with its path component replaced by
`dirname(feed path)` joined with the entry's relative path, all other
URL components (scheme, netloc, params, query, fragment) preserved.
-/
theorem additions_carry_entry_data (feed : UrlParts) (M : List Entry) (A : Finset Key)
    (e : Entry) (he : e ∈ M) (hk : keyOf e ∈ A) :
    mkPendingContent feed e ∈ buildAdditions feed M A ∧
    (mkPendingContent feed e).artifact.size = e.size ∧
    (mkPendingContent feed e).artifact.sha256 = e.digest ∧
    (mkPendingContent feed e).path = e.path ∧
    (mkPendingContent feed e).digest = e.digest ∧
    (mkPendingContent feed e).artifact.url =
      urlunparse ⟨feed.scheme, feed.netloc, posixJoin (posixDirname feed.path) e.path,
        feed.params, feed.query, feed.fragment⟩ := by
  refine ⟨?_, rfl, rfl, rfl, rfl, rfl⟩
  rw [buildAdditions_eq_filter_map]
  exact List.mem_map_of_mem _ (List.mem_filter.mpr ⟨he, by simpa⟩)

/-- Witness for `additions_carry_entry_data` on the spec's §8 scenario. -/
theorem additions_carry_entry_data_witness :
    (⟨"b.txt", "d2", 20⟩ : Entry) ∈
        [(⟨"a.txt", "d1", 10⟩ : Entry), ⟨"b.txt", "d2", 20⟩] ∧
    keyOf ⟨"b.txt", "d2", 20⟩ ∈ ({⟨"b.txt", "d2"⟩} : Finset Key) ∧
    mkPendingContent ⟨"http", "host", "/pub/PULP_MANIFEST", "", "", ""⟩ ⟨"b.txt", "d2", 20⟩ ∈
      buildAdditions ⟨"http", "host", "/pub/PULP_MANIFEST", "", "", ""⟩
        [⟨"a.txt", "d1", 10⟩, ⟨"b.txt", "d2", 20⟩] ({⟨"b.txt", "d2"⟩} : Finset Key) :=
  ⟨by decide, by decide,
    (additions_carry_entry_data ⟨"http", "host", "/pub/PULP_MANIFEST", "", "", ""⟩
      [⟨"a.txt", "d1", 10⟩, ⟨"b.txt", "d2", 20⟩] ({⟨"b.txt", "d2"⟩} : Finset Key)
      ⟨"b.txt", "d2", 20⟩ (by decide) (by decide)).1⟩

/--
C2 counterexample: on a manifest with two entries sharing the key
("a.txt", "d1"), `_build_additions` yields a descriptor for BOTH
occurrences (the first occurrence's size 10 is among the yields), so two
produced descriptors share a key and it is false that only the last
occurrence contributes.
-/
theorem buildAdditions_duplicate_counterexample :
    ¬ (List.Pairwise (fun a b => pcKey a ≠ pcKey b)
        (buildAdditions ⟨"http", "host", "/pub/PULP_MANIFEST", "", "", ""⟩
          [⟨"a.txt", "d1", 10⟩, ⟨"a.txt", "d1", 20⟩]
          (findDelta [⟨"a.txt", "d1", 10⟩, ⟨"a.txt", "d1", 20⟩] ∅ true).1)) ∧
    (buildAdditions ⟨"http", "host", "/pub/PULP_MANIFEST", "", "", ""⟩
        [⟨"a.txt", "d1", 10⟩, ⟨"a.txt", "d1", 20⟩]
        (findDelta [⟨"a.txt", "d1", 10⟩, ⟨"a.txt", "d1", 20⟩] ∅ true).1).map
      (fun d => d.artifact.size) = [10, 20] := by
  constructor
  · decide
  · rfl

/--
C2 (amended): `_build_additions` yields one descriptor per manifest
entry whose key is in `keys_to_add`, in the manifest's natural order;
every such occurrence contributes (duplicates included), and when the
manifest's keys are pairwise distinct no two descriptors share a key.
-/
theorem buildAdditions_order_and_keys (feed : UrlParts) (M : List Entry) (A : Finset Key) :
    buildAdditions feed M A =
      (M.filter (fun e => keyOf e ∈ A)).map (mkPendingContent feed) ∧
    ((M.map keyOf).Nodup → ((buildAdditions feed M A).map pcKey).Nodup) := by
  refine ⟨buildAdditions_eq_filter_map feed M A, ?_⟩
  intro hnd
  rw [buildAdditions_eq_filter_map, List.map_map]
  have hk : pcKey ∘ mkPendingContent feed = keyOf := rfl
  rw [hk]
  have hsub : ((M.filter (fun e => keyOf e ∈ A)).map keyOf).Sublist (M.map keyOf) :=
    (List.filter_sublist M).map keyOf
  exact hnd.sublist hsub

/-- Witness for `buildAdditions_order_and_keys` on a duplicate-free manifest. -/
theorem buildAdditions_order_and_keys_witness :
    (([(⟨"a.txt", "d1", 10⟩ : Entry), ⟨"b.txt", "d2", 20⟩].map keyOf).Nodup) ∧
    ((buildAdditions ⟨"http", "host", "/pub/PULP_MANIFEST", "", "", ""⟩
        [⟨"a.txt", "d1", 10⟩, ⟨"b.txt", "d2", 20⟩]
        ({⟨"b.txt", "d2"⟩} : Finset Key)).map pcKey).Nodup :=
  ⟨by decide,
    (buildAdditions_order_and_keys ⟨"http", "host", "/pub/PULP_MANIFEST", "", "", ""⟩
      [⟨"a.txt", "d1", 10⟩, ⟨"b.txt", "d2", 20⟩] ({⟨"b.txt", "d2"⟩} : Finset Key)).2
      (by decide)⟩

/--
C9: on a manifest whose entries are pairwise distinct by key, the number
of descriptors `_build_additions` yields equals `len(keys_to_add)` — the
size declared for the additions `SizedIterable` in `run` — and every
yielded descriptor's key is a member of `keys_to_add`.
-/
theorem additions_length_matches_declared (feed : UrlParts) (M : List Entry)
    (L : Finset Key) (hnd : (M.map keyOf).Nodup) :
    (buildAdditions feed M (findDelta M L true).1).length =
      (findDelta M L true).1.card ∧
    ∀ d ∈ buildAdditions feed M (findDelta M L true).1,
      pcKey d ∈ (findDelta M L true).1 := by
  constructor
  · have hA : (findDelta M L true).1 = remoteKeys M \ L := rfl
    rw [buildAdditions_eq_filter_map, List.length_map]
    have hfm : (M.map keyOf).filter (fun k => k ∈ (findDelta M L true).1) =
        (M.filter (fun e => keyOf e ∈ (findDelta M L true).1)).map keyOf :=
      filter_comp_map keyOf _ M
    have hlen : (M.filter (fun e => keyOf e ∈ (findDelta M L true).1)).length =
        ((M.map keyOf).filter (fun k => k ∈ (findDelta M L true).1)).length := by
      rw [hfm, List.length_map]
    rw [hlen]
    have hndf : ((M.map keyOf).filter
        (fun k => k ∈ (findDelta M L true).1)).Nodup := hnd.filter _
    have hset : ((M.map keyOf).filter
        (fun k => k ∈ (findDelta M L true).1)).toFinset = (findDelta M L true).1 := by
      ext k
      simp only [List.mem_toFinset, List.mem_filter, decide_eq_true_eq]
      constructor
      · rintro ⟨-, hk⟩
        exact hk
      · intro hk
        refine ⟨?_, hk⟩
        have hr : k ∈ remoteKeys M := by
          rw [hA, Finset.mem_sdiff] at hk
          exact hk.1
        simpa [remoteKeys, List.mem_toFinset] using hr
    rw [← List.toFinset_card_of_nodup hndf, hset]
  · intro d hd
    rw [buildAdditions_eq_filter_map] at hd
    obtain ⟨e, he, rfl⟩ := List.mem_map.mp hd
    have := (List.mem_filter.mp he).2
    simpa using this

/-- Witness for `additions_length_matches_declared` on the spec's §8 scenario. -/
theorem additions_length_matches_declared_witness :
    (([(⟨"a.txt", "d1", 10⟩ : Entry), ⟨"b.txt", "d2", 20⟩].map keyOf).Nodup) ∧
    (buildAdditions ⟨"http", "host", "/pub/PULP_MANIFEST", "", "", ""⟩
        [⟨"a.txt", "d1", 10⟩, ⟨"b.txt", "d2", 20⟩]
        (findDelta [⟨"a.txt", "d1", 10⟩, ⟨"b.txt", "d2", 20⟩]
          ({⟨"a.txt", "d1"⟩} : Finset Key) true).1).length =
      (findDelta [⟨"a.txt", "d1", 10⟩, ⟨"b.txt", "d2", 20⟩]
        ({⟨"a.txt", "d1"⟩} : Finset Key) true).1.card :=
  ⟨by decide,
    (additions_length_matches_declared ⟨"http", "host", "/pub/PULP_MANIFEST", "", "", ""⟩
      [⟨"a.txt", "d1", 10⟩, ⟨"b.txt", "d2", 20⟩]
      ({⟨"a.txt", "d1"⟩} : Finset Key) (by decide)).1⟩

theorem matchesBatch_iff (batch : List Key) (c : Content) :
    matchesBatch batch c = true ↔ ckey c ∈ batch := by
  simp only [matchesBatch, List.any_eq_true, decide_eq_true_eq]
  constructor
  · rintro ⟨⟨p, d⟩, hmem, h1, h2⟩
    subst h1
    subst h2
    exact hmem
  · intro h
    exact ⟨ckey c, h, rfl, rfl⟩

theorem length_filter_matchesBatch (batch : List Key) (contents : List Content) (k : Key) :
    ((contents.filter (matchesBatch batch)).filter (fun c => ckey c = k)).length =
      if k ∈ batch then (contents.filter (fun c => ckey c = k)).length else 0 := by
  rw [List.filter_filter]
  by_cases hk : k ∈ batch
  · rw [if_pos hk]
    congr 1
    apply List.filter_congr
    intro c _
    by_cases hc : ckey c = k
    · have hm : matchesBatch batch c = true := (matchesBatch_iff batch c).mpr (hc ▸ hk)
      simp [hm, hc]
    · simp [hc]
  · rw [if_neg hk]
    have hnil : contents.filter (fun a => decide (ckey a = k) && matchesBatch batch a) = [] := by
      apply List.filter_eq_nil_iff.mpr
      intro c _
      simp only [Bool.and_eq_true, decide_eq_true_eq, not_and]
      intro hc hm
      exact hk (hc ▸ (matchesBatch_iff batch c).mp hm)
    rw [hnil]
    rfl

theorem toBatches_cons (n : Nat) (x : α) (xs : List α) :
    toBatches n (x :: xs) = (x :: xs.take (n - 1)) :: toBatches n (xs.drop (n - 1)) := by
  rw [toBatches]

theorem countP_toBatches (n : Nat) (k : Key) :
    ∀ (m : Nat) (l : List Key), l.length ≤ m → l.Nodup →
      (toBatches n l).countP (fun b => k ∈ b) = if k ∈ l then 1 else 0 := by
  intro m
  induction m with
  | zero =>
      intro l hl _
      have : l = [] := List.eq_nil_of_length_eq_zero (Nat.le_zero.mp hl)
      subst this
      simp [toBatches]
  | succ m ih =>
      intro l hl hnd
      match l with
      | [] => simp [toBatches]
      | x :: xs =>
        rw [toBatches_cons, List.countP_cons]
        have hsplit : (x :: xs.take (n - 1)) ++ xs.drop (n - 1) = x :: xs := by
          simp [List.take_append_drop]
        have hnd' : ((x :: xs.take (n - 1)) ++ xs.drop (n - 1)).Nodup := by
          rw [hsplit]
          exact hnd
        rw [List.nodup_append] at hnd'
        obtain ⟨hbatch, hrest, hdisj⟩ := hnd'
        have hlen : (xs.drop (n - 1)).length ≤ m := by
          have h1 : (xs.drop (n - 1)).length ≤ xs.length := by
            simp [List.length_drop]
          have h2 : xs.length ≤ m := by
            simpa using hl
          omega
        rw [ih (xs.drop (n - 1)) hlen hrest]
        by_cases hkb : k ∈ x :: xs.take (n - 1)
        · have hkr : k ∉ xs.drop (n - 1) := fun hr => hdisj hkb hr
          have hkl : k ∈ x :: xs := by
            rw [← hsplit]
            exact List.mem_append_left _ hkb
          simp [hkb, hkr, hkl]
        · have hiff : k ∈ x :: xs ↔ k ∈ xs.drop (n - 1) := by
            rw [← hsplit, List.mem_append]
            exact ⟨fun h => h.resolve_left hkb, Or.inr⟩
          by_cases hkr : k ∈ xs.drop (n - 1) <;>
            simp [hkb, hkr, hiff.mpr, hiff]

theorem filter_flatMap_batches (bss : List (List Key)) (contents : List Content) (k : Key) :
    ((bss.flatMap (fun b => contents.filter (matchesBatch b))).filter
        (fun c => ckey c = k)).length =
      (bss.countP (fun b => k ∈ b)) * (contents.filter (fun c => ckey c = k)).length := by
  induction bss with
  | nil => simp
  | cons b bss ih =>
      simp only [List.flatMap_cons, List.filter_append, List.length_append, ih,
        List.countP_cons, length_filter_matchesBatch]
      by_cases hk : k ∈ b <;>
        simp [hk, Nat.add_mul, Nat.add_comm]

theorem buildRemovals_length_filter (keys : List Key) (contents : List Content)
    (bs : Nat) (k : Key) (hnd : keys.Nodup) :
    ((buildRemovals keys contents bs).filter (fun c => ckey c = k)).length =
      (if k ∈ keys then 1 else 0) * (contents.filter (fun c => ckey c = k)).length := by
  unfold buildRemovals
  rw [filter_flatMap_batches,
    countP_toBatches bs k keys.length keys (Nat.le_refl _) hnd]

/--
C6: for a key in `keys_to_remove` that no row of the prior version's
content matches, `_build_removals` yields nothing for that key (the
batched lookup simply returns no row — no error); a key matched by
exactly one content row yields exactly one identifier.
-/
theorem removals_skip_missing_keys (keys : List Key) (contents : List Content)
    (bs : Nat) (k : Key) (hnd : keys.Nodup) (hk : k ∈ keys) :
    ((∀ c ∈ contents, ckey c ≠ k) →
        (buildRemovals keys contents bs).filter (fun c => ckey c = k) = []) ∧
    ((contents.filter (fun c => ckey c = k)).length = 1 →
        ((buildRemovals keys contents bs).filter (fun c => ckey c = k)).length = 1) := by
  have h := buildRemovals_length_filter keys contents bs k hnd
  rw [if_pos hk, Nat.one_mul] at h
  constructor
  · intro hmiss
    have hnil : contents.filter (fun c => ckey c = k) = [] := by
      apply List.filter_eq_nil_iff.mpr
      intro c hc
      simpa using hmiss c hc
    rw [← List.length_eq_zero, h, hnil]
    rfl
  · intro h1
    rw [h, h1]

/-- Witness for `removals_skip_missing_keys`: the key ("gone", "dG") is in
`keys_to_remove` but matches no inventory row, and yields nothing. -/
theorem removals_skip_missing_keys_witness :
    ([(⟨"old.txt", "dX"⟩ : Key), ⟨"gone", "dG"⟩].Nodup) ∧
    ((⟨"gone", "dG"⟩ : Key) ∈ [(⟨"old.txt", "dX"⟩ : Key), ⟨"gone", "dG"⟩]) ∧
    (buildRemovals [⟨"old.txt", "dX"⟩, ⟨"gone", "dG"⟩] [⟨1, "old.txt", "dX"⟩] 1000).filter
      (fun c => ckey c = ⟨"gone", "dG"⟩) = [] :=
  ⟨by decide, by decide,
    (removals_skip_missing_keys [⟨"old.txt", "dX"⟩, ⟨"gone", "dG"⟩]
      [⟨1, "old.txt", "dX"⟩] 1000 ⟨"gone", "dG"⟩ (by decide) (by decide)).1
      (by decide)⟩

end PulpFile
